import Mathlib

/-!
# Verification of the multiclip-api job pipeline (src/server.js)

Shallow embedding of the job execution pipeline of `src/server.js`:
the Job record held in the `jobs` map, the history ring buffer
(`pushHistory`), the yt-dlp format selection, the upload progress
callback arithmetic, and the control flow of `runWorker` together with
the `/api/download` handler that admits a job and catches a worker
rejection.  External effects (yt-dlp, fs.stat, S3 upload, signed URL,
fs.remove) are parameterized by a `WorkerEnv` oracle describing their
outcomes; the embedding then computes the exact sequence of states the
code writes to `jobs` and to `history`.
-/

namespace Multiclip

/-- A Job record as stored in the `jobs` map (server.js lines 94–102 for the
admission payload; later writes spread the previous record and override
fields).  Optional fields are absent until the corresponding write. -/
structure Job where
  status : String
  progress : Nat
  platform : String
  resourceId : String
  quality : String
  type : String
  url : String
  downloadUrl : Option String
  fileKey : Option String
  fileSize : Option Nat
  error : Option String
deriving Repr, DecidableEq

/-- Error message thrown when the destination bucket is not configured
(server.js line 124). -/
def noBucketMsg : String := "S3_BUCKET 환경 변수가 설정되지 않았습니다."

/-- Error message thrown when the fetched artifact is empty
(server.js line 160). -/
def emptyArtifactMsg : String := "다운로드된 파일이 비어 있습니다."

/-- JS `String.prototype.toLowerCase()` restricted to the ASCII range, as a
character-by-character map (all strings the server compares are ASCII). -/
def jsToLower (s : String) : String := String.mk (s.data.map Char.toLower)

/-- yt-dlp format selection (server.js lines 131, 136–146): audio requests
get the audio-only chain, video requests get a resolution-floor chain
keyed on the quality tier, defaulting to the 720 floor. -/
def resolveFormat (type quality : String) : String :=
  if jsToLower type = "audio" then
    "bestaudio[ext=m4a]/bestaudio"
  else if quality = "4K" then
    "bestvideo[height>=2160][ext=mp4]+bestaudio[ext=m4a]/best[ext=mp4]/best"
  else if quality = "1080p" then
    "bestvideo[height>=1080][ext=mp4]+bestaudio[ext=m4a]/best[ext=mp4]/best"
  else
    "bestvideo[height>=720][ext=mp4]+bestaudio[ext=m4a]/best[ext=mp4]/best"

/-- The combined video chain with resolution floor `n`, written from the
spec's description (floor `n`, preferred container, two-step fallback);
used to compare `resolveFormat` against the spec's floors. -/
def videoChain (n : Nat) : String :=
  "bestvideo[height>=" ++ toString n ++ "][ext=mp4]+bestaudio[ext=m4a]/best[ext=mp4]/best"

/-- The audio-only chain described by the spec: prefer the m4a container,
fall back to best available audio. -/
def audioChain : String := "bestaudio[ext=m4a]/bestaudio"

/-- `Math.round((loaded / total) * 30)` with the JS guard `p.total ? … : 0`
(server.js line 181); round-half-up on the nonnegative rational. -/
def uploadRatio (loaded total : Nat) : Nat :=
  if total = 0 then 0 else (60 * loaded + total) / (2 * total)

/-- The progress value written by one upload progress callback
(server.js lines 180–186): `60 + Math.min(30, ratio)`. -/
def uploadProgressValue (loaded total : Nat) : Nat :=
  60 + min 30 (uploadRatio loaded total)

/-- History ring-buffer capacity (server.js line 52). -/
def MAX_HISTORY : Nat := 50

/-- One stored history entry: the pushed item fields (jobId plus the job
snapshot) together with the capture timestamp `at: Date.now()` added by
`pushHistory` (server.js line 55). -/
structure HistoryItem where
  jobId : String
  job : Job
  «at» : Nat
deriving Repr, DecidableEq

/-- `pushHistory` (server.js lines 54–57): unshift the new entry with the
capture timestamp, then truncate the array to `MAX_HISTORY` if longer. -/
def pushHistory (jobId : String) (job : Job) (now : Nat)
    (history : List HistoryItem) : List HistoryItem :=
  let h2 := { jobId := jobId, job := job, «at» := now } :: history
  if h2.length > MAX_HISTORY then h2.take MAX_HISTORY else h2

/-- The error write (server.js lines 206–208 and 106): spread the current
record, set `status: 'error'`, `progress: 0`, and the message. -/
def errJob (j : Job) (msg : String) : Job :=
  { j with status := "error", progress := 0, error := some msg }

/-- The success write (server.js lines 196–204): spread the current record,
set `status: 'done'`, `progress: 100`, `downloadUrl`, `fileKey`,
`fileSize`. -/
def doneJob (j : Job) (signedUrl key : String) (fileSize : Nat) : Job :=
  { j with status := "done", progress := 100, downloadUrl := some signedUrl,
           fileKey := some key, fileSize := some fileSize }

/-- Outcomes of the external effects one `runWorker` execution observes:
whether the bucket env var is set, whether yt-dlp rejects (with its
diagnostic string), the artifact `fs.stat` observes afterwards (`none` =
file absent, so `fs.stat` rejects with `statErrMsg`), the sequence of
`httpUploadProgress` callbacks as `(loaded, total)` pairs, whether the
upload and the signed-URL request reject, the signed URL on success, and
whether `fs.remove` succeeds. -/
structure WorkerEnv where
  bucketSet : Bool
  fetch : Option String
  artifact : Option Nat
  statErrMsg : String
  uploadEvents : List (Nat × Nat)
  upload : Option String
  sign : Option String
  signedUrl : String
  removeOk : Bool
deriving Repr, DecidableEq

/-- What one admission's pipeline run did: the successive Job records
written to `jobs` after the admission write, in order; the Job snapshots
pushed to history; whether yt-dlp was invoked; whether `fs.remove` was
called in the `finally` block; and whether the temporary artifact is
absent afterwards. -/
structure RunOutcome where
  trace : List Job
  history : List Job
  fetchInvoked : Bool
  removeCalled : Bool
  artifactRemoved : Bool
deriving Repr, DecidableEq

/-- `String(type).toLowerCase() === 'audio'` (server.js line 131). -/
def audioOnly (j : Job) : Bool := jsToLower j.type == "audio"

/-- The object-store key for a job (server.js lines 165–166). -/
def destKey (jobId : String) (isAudioOnly : Bool) : String :=
  "downloads/" ++ jobId ++ "." ++ (if isAudioOnly then "m4a" else "mp4")

/-- The first worker write (server.js line 129): spread the admitted job,
set `status: 'processing'`, `progress: 5`. -/
def processingJob (j0 : Job) : Job := { j0 with status := "processing", progress := 5 }

/-- The write after a successful stat (server.js line 163): spread the
current record, set `progress: 60`. -/
def fetchedJob (j0 : Job) : Job := { processingJob j0 with progress := 60 }

/-- The write one `httpUploadProgress` callback makes for the `(loaded,
total)` pair `p` (server.js lines 180–186). -/
def uploadState (j0 : Job) (p : Nat × Nat) : Job :=
  { fetchedJob j0 with progress := uploadProgressValue p.1 p.2 }

/-- `runWorker` (server.js lines 123–216) together with the `.catch` the
`/api/download` handler attaches (lines 104–109): given the effect
outcomes in `env` and the admitted job `j0`, compute every write the run
makes.  The bucket check rejects the worker promise before the try block,
so the handler's catch writes `{...payload, status:'error', progress:0}`
and pushes history without invoking yt-dlp or touching a temp file; on
every other path the worker's own try/catch/finally runs, the catch
spreading the registry's current record and the finally swallowing any
`fs.remove` failure. -/
def runWorker (env : WorkerEnv) (jobId : String) (j0 : Job) : RunOutcome :=
  if ¬env.bucketSet then
    { trace := [errJob j0 noBucketMsg], history := [errJob j0 noBucketMsg],
      fetchInvoked := false, removeCalled := false, artifactRemoved := false }
  else
    let finish : List Job → Job → RunOutcome := fun states t =>
      { trace := states ++ [t], history := [t], fetchInvoked := true,
        removeCalled := true, artifactRemoved := env.removeOk }
    match env.fetch with
    | some msg => finish [processingJob j0] (errJob (processingJob j0) msg)
    | none =>
      match env.artifact with
      | none => finish [processingJob j0] (errJob (processingJob j0) env.statErrMsg)
      | some size =>
        if size = 0 then
          finish [processingJob j0] (errJob (processingJob j0) emptyArtifactMsg)
        else
          let uploadStates := env.uploadEvents.map (uploadState j0)
          let afterUpload := uploadStates.getLastD (fetchedJob j0)
          let states := processingJob j0 :: fetchedJob j0 :: uploadStates
          match env.upload with
          | some msg => finish states (errJob afterUpload msg)
          | none =>
            match env.sign with
            | some msg => finish states (errJob afterUpload msg)
            | none =>
              finish states
                (doneJob afterUpload env.signedUrl (destKey jobId (audioOnly j0)) size)

/-- A request body for `/api/download` (server.js lines 86–87): each field
may be absent; `quality` and `type` get destructuring defaults only when
absent. -/
structure DownloadRequest where
  url : Option String
  platform : Option String
  resourceId : Option String
  quality : Option String
  type : Option String
deriving Repr, DecidableEq

/-- JS truthiness of an optional string field: absent and `""` are falsy. -/
def truthy : Option String → Bool
  | none => false
  | some s => s ≠ ""

/-- The `/api/download` handler's admission step (server.js lines 85–103):
reject with 400 unless `url`, `platform`, `resourceId` are truthy,
otherwise build the queued payload (with destructuring defaults for
`quality` and `type`) and register it.  `none` = rejected, no Job
created; `some payload` = the Job added to the registry. -/
def handleDownload (req : DownloadRequest) : Option Job :=
  if truthy req.url ∧ truthy req.platform ∧ truthy req.resourceId then
    some { status := "queued", progress := 0,
           platform := req.platform.getD "", resourceId := req.resourceId.getD "",
           quality := req.quality.getD "1080p", type := req.type.getD "video",
           url := req.url.getD "", downloadUrl := none, fileKey := none,
           fileSize := none, error := none }
  else none

/-- The URL check of `/api/parse` (server.js line 71): the URL must start
with `http://` or `https://`, case-insensitively. -/
def parseUrlOk (url : String) : Bool :=
  let l := (jsToLower url).data
  l.take 7 == "http://".data || l.take 8 == "https://".data

/-- The full trace of Job records for one admitted job: the admission
write followed by everything the pipeline writes. -/
def fullTrace (env : WorkerEnv) (jobId : String) (j0 : Job) : List Job :=
  j0 :: (runWorker env jobId j0).trace

/-- A job is terminal when its status is `done` or `error`. -/
def terminal (j : Job) : Prop := j.status = "done" ∨ j.status = "error"

instance : DecidablePred terminal := fun j => by
  unfold terminal; infer_instance

/-- A job exactly as the admission write leaves it: queued, zero progress,
no result or error fields. -/
def admitted (j : Job) : Prop :=
  j.status = "queued" ∧ j.progress = 0 ∧ j.downloadUrl = none ∧
  j.fileKey = none ∧ j.fileSize = none ∧ j.error = none

instance : DecidablePred admitted := fun j => by
  unfold admitted; infer_instance

/-- One step of the progress discipline §3 states: progress does not
decrease, except that a transition to `error` resets it to 0. -/
def monoStep (a b : Job) : Prop :=
  a.progress ≤ b.progress ∨ (b.status = "error" ∧ b.progress = 0)

/-- The monotonicity invariant over a whole sequence of job states. -/
def progressMonotone (l : List Job) : Prop := List.Chain' monoStep l

/-- Executable form of `monoStep`. -/
def monoStepB (a b : Job) : Bool :=
  (a.progress ≤ b.progress) || (b.status == "error" && b.progress == 0)

/-- Executable form of `progressMonotone`, used to evaluate it on concrete
traces. -/
def progressMonotoneB : List Job → Bool
  | [] => true
  | [_] => true
  | a :: b :: rest => monoStepB a b && progressMonotoneB (b :: rest)

/-- A concrete admitted job, used as witness input. -/
def sampleJob : Job :=
  { status := "queued", progress := 0, platform := "youtube",
    resourceId := "rs_1", quality := "1080p", type := "video",
    url := "https://youtu.be/abc123", downloadUrl := none, fileKey := none,
    fileSize := none, error := none }

/-- A concrete all-stages-succeed effect environment, used as witness
input. -/
def sampleEnv : WorkerEnv :=
  { bucketSet := true, fetch := none, artifact := some 1024,
    statErrMsg := "ENOENT: no such file or directory",
    uploadEvents := [(512, 1024), (1024, 1024)], upload := none,
    sign := none, signedUrl := "https://s3.example/signed", removeOk := true }

/-- An environment whose second upload callback reports no total: the
callback then writes `60`, below the `90` the first callback wrote. -/
def envProgressDrop : WorkerEnv := { sampleEnv with uploadEvents := [(1, 1), (0, 0)] }

/-- An environment where yt-dlp succeeds but leaves no file, so `fs.stat`
rejects. -/
def envAbsentArtifact : WorkerEnv := { sampleEnv with artifact := none }

/-- A download request whose URL is present but not an http(s) URL. -/
def badUrlReq : DownloadRequest :=
  { url := some "not-a-url", platform := some "youtube", resourceId := some "rs_1",
    quality := none, type := none }

/-- The job `/api/download` registers for `badUrlReq`. -/
def badUrlJob : Job :=
  { status := "queued", progress := 0, platform := "youtube", resourceId := "rs_1",
    quality := "1080p", type := "video", url := "not-a-url", downloadUrl := none,
    fileKey := none, fileSize := none, error := none }

/-! ## Helper lemmas -/

lemma afterUpload_cases (env : WorkerEnv) (j0 : Job) :
    (env.uploadEvents.map (uploadState j0)).getLastD (fetchedJob j0) = fetchedJob j0 ∨
    ∃ p ∈ env.uploadEvents,
      (env.uploadEvents.map (uploadState j0)).getLastD (fetchedJob j0) =
        uploadState j0 p := by
  have hmem := List.getLastD_mem_cons (env.uploadEvents.map (uploadState j0))
    (fetchedJob j0)
  rcases List.mem_cons.mp hmem with h | h
  · exact Or.inl h
  · rcases List.mem_map.mp h with ⟨p, hp, hEq⟩
    exact Or.inr ⟨p, hp, hEq.symm⟩

lemma afterUpload_eq (env : WorkerEnv) (j0 : Job) :
    (Option.map (uploadState j0) env.uploadEvents.getLast?).getD (fetchedJob j0) =
      (env.uploadEvents.map (uploadState j0)).getLastD (fetchedJob j0) := by
  rw [List.getLastD_eq_getLast?, List.getLast?_map]

lemma mem_trace_cases (env : WorkerEnv) (jobId : String) (j0 : Job) (j : Job)
    (hj : j ∈ (runWorker env jobId j0).trace) :
    (∃ base msg,
        (base = j0 ∨ base = processingJob j0 ∨ base = fetchedJob j0 ∨
          ∃ p ∈ env.uploadEvents, base = uploadState j0 p) ∧
        j = errJob base msg) ∨
    j = processingJob j0 ∨
    j = fetchedJob j0 ∨
    (∃ p ∈ env.uploadEvents, j = uploadState j0 p) ∨
    (∃ base size, env.artifact = some size ∧ size ≠ 0 ∧
        (base = fetchedJob j0 ∨ ∃ p ∈ env.uploadEvents, base = uploadState j0 p) ∧
        j = doneJob base env.signedUrl (destKey jobId (audioOnly j0)) size) := by
  by_cases hb : env.bucketSet
  case neg =>
    simp [runWorker, hb] at hj
    exact Or.inl ⟨j0, noBucketMsg, Or.inl rfl, hj⟩
  case pos =>
  rcases hf : env.fetch with _ | msg
  case some =>
    simp [runWorker, hb, hf] at hj
    rcases hj with hj | hj
    · exact Or.inr (Or.inl hj)
    · exact Or.inl ⟨processingJob j0, msg, Or.inr (Or.inl rfl), hj⟩
  case none =>
  rcases ha : env.artifact with _ | size
  case none =>
    simp [runWorker, hb, hf, ha] at hj
    rcases hj with hj | hj
    · exact Or.inr (Or.inl hj)
    · exact Or.inl ⟨processingJob j0, env.statErrMsg, Or.inr (Or.inl rfl), hj⟩
  case some =>
  by_cases hs : size = 0
  case pos =>
    simp [runWorker, hb, hf, ha, hs] at hj
    rcases hj with hj | hj
    · exact Or.inr (Or.inl hj)
    · exact Or.inl ⟨processingJob j0, emptyArtifactMsg, Or.inr (Or.inl rfl), hj⟩
  case neg =>
  rcases hu : env.upload with _ | msg
  case some =>
    simp [runWorker, hb, hf, ha, hs, hu] at hj
    rw [afterUpload_eq env j0] at hj
    rcases hj with hj | hj | ⟨a, b, hp, hj⟩ | hj
    · exact Or.inr (Or.inl hj)
    · exact Or.inr (Or.inr (Or.inl hj))
    · exact Or.inr (Or.inr (Or.inr (Or.inl ⟨(a, b), hp, hj.symm⟩)))
    · rcases afterUpload_cases env j0 with hA | ⟨p, hp, hA⟩
      · exact Or.inl ⟨fetchedJob j0, msg, Or.inr (Or.inr (Or.inl rfl)), by rw [hj, hA]⟩
      · exact Or.inl ⟨uploadState j0 p, msg,
          Or.inr (Or.inr (Or.inr ⟨p, hp, rfl⟩)), by rw [hj, hA]⟩
  case none =>
  rcases hsig : env.sign with _ | msg
  case some =>
    simp [runWorker, hb, hf, ha, hs, hu, hsig] at hj
    rw [afterUpload_eq env j0] at hj
    rcases hj with hj | hj | ⟨a, b, hp, hj⟩ | hj
    · exact Or.inr (Or.inl hj)
    · exact Or.inr (Or.inr (Or.inl hj))
    · exact Or.inr (Or.inr (Or.inr (Or.inl ⟨(a, b), hp, hj.symm⟩)))
    · rcases afterUpload_cases env j0 with hA | ⟨p, hp, hA⟩
      · exact Or.inl ⟨fetchedJob j0, msg, Or.inr (Or.inr (Or.inl rfl)), by rw [hj, hA]⟩
      · exact Or.inl ⟨uploadState j0 p, msg,
          Or.inr (Or.inr (Or.inr ⟨p, hp, rfl⟩)), by rw [hj, hA]⟩
  case none =>
    simp [runWorker, hb, hf, ha, hs, hu, hsig] at hj
    rw [afterUpload_eq env j0] at hj
    rcases hj with hj | hj | ⟨a, b, hp, hj⟩ | hj
    · exact Or.inr (Or.inl hj)
    · exact Or.inr (Or.inr (Or.inl hj))
    · exact Or.inr (Or.inr (Or.inr (Or.inl ⟨(a, b), hp, hj.symm⟩)))
    · rcases afterUpload_cases env j0 with hA | ⟨p, hp, hA⟩
      · exact Or.inr (Or.inr (Or.inr (Or.inr
          ⟨fetchedJob j0, size, rfl, hs, Or.inl rfl, by rw [hj, hA]⟩)))
      · exact Or.inr (Or.inr (Or.inr (Or.inr
          ⟨uploadState j0 p, size, rfl, hs, Or.inr ⟨p, hp, rfl⟩, by rw [hj, hA]⟩)))

lemma uploadProgressValue_le (l t : Nat) : uploadProgressValue l t ≤ 90 := by
  unfold uploadProgressValue uploadRatio
  split <;> omega

lemma pushHistory_head (jid : String) (job : Job) (now : Nat) (h : List HistoryItem) :
    (pushHistory jid job now h).head? = some { jobId := jid, job := job, «at» := now } := by
  unfold pushHistory
  by_cases hc : ({ jobId := jid, job := job, «at» := now } :: h).length > MAX_HISTORY
  · rw [if_pos hc, show MAX_HISTORY = 49 + 1 from rfl, List.take_succ_cons]
    rfl
  · rw [if_neg hc]
    rfl

lemma history_branch_helper (j0 t : Job) (states : List Job)
    (hstates : ∀ j ∈ states, j.status = "processing") (hq : j0.status = "queued") :
    (∀ j ∈ (states ++ [t]).dropLast, ¬ terminal j) ∧
    (∀ j ∈ j0 :: (states ++ [t]), terminal j → j ∈ [t]) := by
  rw [List.dropLast_concat]
  constructor
  · intro j hj ht
    have hst := hstates j hj
    rcases ht with h | h <;> rw [hst] at h <;> simp at h
  · intro j hj ht
    rcases List.mem_cons.mp hj with rfl | hj
    · rcases ht with h | h <;> rw [hq] at h <;> simp at h
    · rcases List.mem_append.mp hj with hj | hj
      · have hst := hstates j hj
        rcases ht with h | h <;> rw [hst] at h <;> simp at h
      · exact hj

lemma history_goal_of_shape (env : WorkerEnv) (jobId : String) (j0 t : Job)
    (states : List Job)
    (htr : (runWorker env jobId j0).trace = states ++ [t])
    (hh : (runWorker env jobId j0).history = [t])
    (hterm : terminal t)
    (hstates : ∀ j ∈ states, j.status = "processing")
    (hq : j0.status = "queued") :
    (runWorker env jobId j0).history = [(runWorker env jobId j0).trace.getLastD j0] ∧
    terminal ((runWorker env jobId j0).trace.getLastD j0) ∧
    (∀ j ∈ (runWorker env jobId j0).trace.dropLast, ¬ terminal j) ∧
    (∀ j ∈ fullTrace env jobId j0, terminal j → j ∈ (runWorker env jobId j0).history) ∧
    (∀ now hist,
      (pushHistory jobId ((runWorker env jobId j0).trace.getLastD j0) now hist).head? =
        some { jobId := jobId, job := (runWorker env jobId j0).trace.getLastD j0,
               «at» := now }) := by
  have hlast : (runWorker env jobId j0).trace.getLastD j0 = t := by
    rw [htr, List.getLastD_concat]
  obtain ⟨hdrop, hmem⟩ := history_branch_helper j0 t states hstates hq
  refine ⟨by rw [hh, hlast], by rw [hlast]; exact hterm, ?_, ?_, ?_⟩
  · rw [htr]
    exact hdrop
  · intro j hj ht
    rw [hh]
    refine hmem j ?_ ht
    rw [← htr]
    exact hj
  · intro now hist
    rw [hlast]
    exact pushHistory_head jobId t now hist

lemma mem_of_getLast_opt {α : Type} {l : List α} {x : α} (hx : x ∈ l.getLast?) :
    x ∈ l := by
  rcases List.mem_getLast?_eq_getLast hx with ⟨h, rfl⟩
  exact List.getLast_mem h

lemma chain'_upload (j0 : Job) (evs : List (Nat × Nat))
    (hcb : List.Chain' (fun a b => a ≤ b)
      (evs.map fun p => uploadProgressValue p.1 p.2)) :
    List.Chain' monoStep (evs.map (uploadState j0)) := by
  rw [List.chain'_map]
  rw [List.chain'_map] at hcb
  exact hcb.imp fun a b h => Or.inl (by simpa [uploadState] using h)

lemma chain'_full_branch (j0 : Job) (evs : List (Nat × Nat)) (t : Job)
    (h0 : j0.progress = 0)
    (hcb : List.Chain' (fun a b => a ≤ b)
      (evs.map fun p => uploadProgressValue p.1 p.2))
    (hterm : (t.status = "error" ∧ t.progress = 0) ∨ t.progress = 100) :
    List.Chain' monoStep
      ((j0 :: processingJob j0 :: fetchedJob j0 :: evs.map (uploadState j0)) ++ [t]) := by
  rw [List.chain'_append]
  refine ⟨?_, by simp, ?_⟩
  · rw [List.chain'_cons]
    refine ⟨Or.inl (by simp [processingJob, h0]), ?_⟩
    rw [List.chain'_cons]
    refine ⟨Or.inl (by simp [processingJob, fetchedJob]), ?_⟩
    rw [List.chain'_cons']
    refine ⟨?_, chain'_upload j0 evs hcb⟩
    intro y hy
    rcases evs with _ | ⟨e, rest⟩
    · simp at hy
    · simp only [List.map_cons, List.head?_cons, Option.mem_def,
        Option.some_inj] at hy
      subst hy
      refine Or.inl ?_
      simp only [uploadState, fetchedJob, processingJob, uploadProgressValue]
      omega
  · intro x hx y hy
    simp only [List.head?_cons, Option.mem_def, Option.some_inj] at hy
    subst hy
    rcases hterm with ⟨hs, hp⟩ | hp
    · exact Or.inr ⟨hs, hp⟩
    · refine Or.inl ?_
      rw [hp]
      have hx' := mem_of_getLast_opt hx
      have hle : x.progress ≤ 90 := by
        rcases List.mem_cons.mp hx' with rfl | hx'
        · omega
        rcases List.mem_cons.mp hx' with rfl | hx'
        · simp [processingJob]
        rcases List.mem_cons.mp hx' with rfl | hx'
        · simp [fetchedJob, processingJob]
        · rcases List.mem_map.mp hx' with ⟨p, hp2, rfl⟩
          simpa [uploadState, fetchedJob, processingJob] using
            uploadProgressValue_le p.1 p.2
      omega

lemma progressMonotone_iff (l : List Job) :
    progressMonotone l ↔ progressMonotoneB l = true := by
  induction l with
  | nil => simp [progressMonotone, progressMonotoneB]
  | cons a l ih =>
    cases l with
    | nil => simp [progressMonotone, progressMonotoneB]
    | cons b rest =>
      rw [progressMonotone, List.chain'_cons, progressMonotoneB]
      rw [progressMonotone] at ih
      simp [monoStepB, ← ih, monoStep]

/-! ## Claim theorems -/

/-- C7: `pushHistory` keeps the history at no more than `MAX_HISTORY`
entries and keeps it newest-first: the new entry (stamped with the capture
time) lands at the front and the retained tail is the first
`MAX_HISTORY - 1` old entries, so an insertion past capacity evicts
exactly the oldest entry. -/
theorem pushHistory_capacity_and_order (jobId : String) (job : Job) (now : Nat)
    (h : List HistoryItem) (hle : h.length ≤ MAX_HISTORY) :
    (pushHistory jobId job now h).length ≤ MAX_HISTORY ∧
    pushHistory jobId job now h =
      { jobId := jobId, job := job, «at» := now } :: h.take (MAX_HISTORY - 1) := by
  have hcons : ({ jobId := jobId, job := job, «at» := now } :: h).length = h.length + 1 :=
    List.length_cons _ _
  simp only [pushHistory, MAX_HISTORY] at *
  by_cases hc : h.length + 1 > 50
  · rw [if_pos (by rw [hcons]; exact hc)]
    refine ⟨by rw [List.length_take]; omega, ?_⟩
    have h50 : (50 : Nat) = 49 + 1 := rfl
    rw [h50, List.take_succ_cons]
  · rw [if_neg (by rw [hcons]; exact hc)]
    refine ⟨by rw [hcons]; omega, ?_⟩
    rw [List.take_of_length_le (by omega)]

/-- Witness for C7 at a concrete input. -/
theorem pushHistory_capacity_and_order_witness :
    (pushHistory "job_1" sampleJob 7 []).length ≤ MAX_HISTORY ∧
    pushHistory "job_1" sampleJob 7 [] =
      { jobId := "job_1", job := sampleJob, «at» := 7 } ::
        ([] : List HistoryItem).take (MAX_HISTORY - 1) :=
  pushHistory_capacity_and_order "job_1" sampleJob 7 [] (by decide)

/-- C6: the Quality/Format Resolver is a pure total function of
(mediaType, qualityTier): audio requests always get the m4a-preferring
audio-only chain with the best-audio fallback; video requests get the
combined chain with resolution floor 2160 for tier "4K", 1080 for
"1080p", and 720 for "720p" or any other tier, each with the same
two-step container fallback. -/
theorem resolveFormat_spec (type quality : String) :
    (jsToLower type = "audio" → resolveFormat type quality = audioChain) ∧
    (jsToLower type ≠ "audio" →
      resolveFormat type quality =
        if quality = "4K" then videoChain 2160
        else if quality = "1080p" then videoChain 1080
        else videoChain 720) := by
  constructor
  · intro h
    simp [resolveFormat, h, audioChain]
  · intro h
    simp only [resolveFormat, if_neg h]
    split_ifs <;> decide

/-- Witness for C6 at concrete inputs. -/
theorem resolveFormat_spec_witness :
    resolveFormat "Audio" "4K" = audioChain ∧
    resolveFormat "video" "480p" = videoChain 720 := by
  constructor
  · exact (resolveFormat_spec "Audio" "4K").1 (by decide)
  · have h := (resolveFormat_spec "video" "480p").2 (by decide)
    rwa [if_neg (by decide), if_neg (by decide)] at h

/-- C5: with no destination bucket configured, the worker rejects before
any stage runs: yt-dlp is never invoked, and the handler's catch marks
the job `error` with the distinct configuration message and records it in
history. -/
theorem no_bucket_config_error (env : WorkerEnv) (jobId : String) (j0 : Job)
    (hb : env.bucketSet = false) :
    (runWorker env jobId j0).trace = [errJob j0 noBucketMsg] ∧
    (runWorker env jobId j0).history = [errJob j0 noBucketMsg] ∧
    (runWorker env jobId j0).fetchInvoked = false ∧
    (errJob j0 noBucketMsg).status = "error" ∧
    (errJob j0 noBucketMsg).error = some noBucketMsg := by
  simp [runWorker, hb, errJob]

/-- Witness for C5 at a concrete input. -/
theorem no_bucket_config_error_witness :
    (runWorker { sampleEnv with bucketSet := false } "job_1" sampleJob).trace
        = [errJob sampleJob noBucketMsg] ∧
    (runWorker { sampleEnv with bucketSet := false } "job_1" sampleJob).history
        = [errJob sampleJob noBucketMsg] ∧
    (runWorker { sampleEnv with bucketSet := false } "job_1" sampleJob).fetchInvoked
        = false ∧
    (errJob sampleJob noBucketMsg).status = "error" ∧
    (errJob sampleJob noBucketMsg).error = some noBucketMsg :=
  no_bucket_config_error { sampleEnv with bucketSet := false } "job_1" sampleJob rfl

/-- C10: every write the pipeline makes — the processing transition, the
progress updates, and both terminal transitions — leaves the admission-time
attributes url, platform, resourceId, quality and type unchanged from the
admitted job. -/
theorem pipeline_preserves_admission_attrs (env : WorkerEnv) (jobId : String)
    (j0 : Job) :
    ∀ j ∈ fullTrace env jobId j0,
      j.url = j0.url ∧ j.platform = j0.platform ∧ j.resourceId = j0.resourceId ∧
      j.quality = j0.quality ∧ j.type = j0.type := by
  intro j hj
  rcases List.mem_cons.mp hj with rfl | hj
  · exact ⟨rfl, rfl, rfl, rfl, rfl⟩
  rcases mem_trace_cases env jobId j0 j hj with
      ⟨base, msg, hbase, rfl⟩ | rfl | rfl | ⟨p, hp, rfl⟩ |
      ⟨base, size, ha, hs, hbase, rfl⟩
  · rcases hbase with rfl | rfl | rfl | ⟨p, hp, rfl⟩ <;>
      simp [errJob, processingJob, fetchedJob, uploadState]
  · simp [processingJob]
  · simp [fetchedJob, processingJob]
  · simp [uploadState, fetchedJob, processingJob]
  · rcases hbase with rfl | ⟨p, hp, rfl⟩ <;>
      simp [doneJob, fetchedJob, processingJob, uploadState]

/-- Witness for C10: the terminal state of a successful concrete run keeps
the admitted attributes. -/
theorem pipeline_preserves_admission_attrs_witness :
    ((fullTrace sampleEnv "job_1" sampleJob).getLastD sampleJob).url = sampleJob.url ∧
    ((fullTrace sampleEnv "job_1" sampleJob).getLastD sampleJob).platform =
      sampleJob.platform ∧
    ((fullTrace sampleEnv "job_1" sampleJob).getLastD sampleJob).resourceId =
      sampleJob.resourceId ∧
    ((fullTrace sampleEnv "job_1" sampleJob).getLastD sampleJob).quality =
      sampleJob.quality ∧
    ((fullTrace sampleEnv "job_1" sampleJob).getLastD sampleJob).type =
      sampleJob.type :=
  pipeline_preserves_admission_attrs sampleEnv "job_1" sampleJob
    ((fullTrace sampleEnv "job_1" sampleJob).getLastD sampleJob) (by decide)

/-- C2: in every state an admitted job passes through, `status == done`
holds iff `progress == 100`, iff the result URL and fileSize are set with
the error unset; and the done state carries the signed URL, the
destination key, and the artifact size `fs.stat` measured after the fetch
and before the transfer. -/
theorem done_iff_progress_and_results (env : WorkerEnv) (jobId : String) (j0 : Job)
    (hadm : admitted j0) :
    ∀ j ∈ fullTrace env jobId j0,
      (j.status = "done" ↔ j.progress = 100) ∧
      (j.status = "done" ↔ j.downloadUrl ≠ none ∧ j.fileSize ≠ none ∧ j.error = none) ∧
      (j.status = "done" →
        j.downloadUrl = some env.signedUrl ∧
        j.fileKey = some (destKey jobId (audioOnly j0)) ∧
        ∃ size, env.artifact = some size ∧ 0 < size ∧ j.fileSize = some size) := by
  obtain ⟨hq, hpr, hdu, hfk, hfs, herr⟩ := hadm
  intro j hj
  rcases List.mem_cons.mp hj with rfl | hj
  · refine ⟨?_, ?_, ?_⟩ <;> simp [hq, hpr, hdu, hfs]
  rcases mem_trace_cases env jobId j0 j hj with
      ⟨base, msg, hbase, rfl⟩ | rfl | rfl | ⟨p, hp, rfl⟩ |
      ⟨base, size, ha, hs, hbase, rfl⟩
  · rcases hbase with rfl | rfl | rfl | ⟨p, hp, rfl⟩ <;>
      refine ⟨?_, ?_, ?_⟩ <;>
      simp [errJob, processingJob, fetchedJob, uploadState, hdu, hfs]
  · refine ⟨?_, ?_, ?_⟩ <;> simp [processingJob, hdu, hfs]
  · refine ⟨?_, ?_, ?_⟩ <;> simp [fetchedJob, processingJob, hdu, hfs]
  · refine ⟨?_, ?_, ?_⟩ <;> simp [uploadState, fetchedJob, processingJob, hdu, hfs]
    · have := uploadProgressValue_le p.1 p.2
      omega
  · rcases hbase with rfl | ⟨p, hp, rfl⟩ <;> refine ⟨?_, ?_, ?_⟩ <;>
      simp [doneJob, fetchedJob, processingJob, uploadState, herr] <;>
      exact ⟨ha, Nat.pos_of_ne_zero hs⟩

/-- Witness for C2: the terminal state of a successful concrete run. -/
theorem done_iff_progress_and_results_witness :
    ((((fullTrace sampleEnv "job_1" sampleJob).getLastD sampleJob).status = "done" ↔
      ((fullTrace sampleEnv "job_1" sampleJob).getLastD sampleJob).progress = 100) ∧
     (((fullTrace sampleEnv "job_1" sampleJob).getLastD sampleJob).status = "done" ↔
      ((fullTrace sampleEnv "job_1" sampleJob).getLastD sampleJob).downloadUrl ≠ none ∧
      ((fullTrace sampleEnv "job_1" sampleJob).getLastD sampleJob).fileSize ≠ none ∧
      ((fullTrace sampleEnv "job_1" sampleJob).getLastD sampleJob).error = none) ∧
     (((fullTrace sampleEnv "job_1" sampleJob).getLastD sampleJob).status = "done" →
      ((fullTrace sampleEnv "job_1" sampleJob).getLastD sampleJob).downloadUrl =
        some sampleEnv.signedUrl ∧
      ((fullTrace sampleEnv "job_1" sampleJob).getLastD sampleJob).fileKey =
        some (destKey "job_1" (audioOnly sampleJob)) ∧
      ∃ size, sampleEnv.artifact = some size ∧ 0 < size ∧
        ((fullTrace sampleEnv "job_1" sampleJob).getLastD sampleJob).fileSize =
          some size)) :=
  done_iff_progress_and_results sampleEnv "job_1" sampleJob (by decide)
    ((fullTrace sampleEnv "job_1" sampleJob).getLastD sampleJob) (by decide)

/-- C3: on every worker path the `finally` block calls `fs.remove` on the
temporary artifact, the artifact is gone exactly when that removal
succeeds, and a removal failure never escalates — the job states and
history the run produces do not depend on whether the removal succeeded. -/
theorem cleanup_always_attempted (env : WorkerEnv) (jobId : String) (j0 : Job)
    (hb : env.bucketSet = true) :
    (runWorker env jobId j0).removeCalled = true ∧
    ((runWorker env jobId j0).artifactRemoved = true ↔ env.removeOk = true) ∧
    (∀ b : Bool,
      (runWorker { env with removeOk := b } jobId j0).trace =
        (runWorker env jobId j0).trace ∧
      (runWorker { env with removeOk := b } jobId j0).history =
        (runWorker env jobId j0).history) := by
  rcases hf : env.fetch with _ | msg
  case some => simp [runWorker, hb, hf]
  case none =>
  rcases ha : env.artifact with _ | size
  case none => simp [runWorker, hb, hf, ha]
  case some =>
  by_cases hs : size = 0
  case pos => simp [runWorker, hb, hf, ha, hs]
  case neg =>
  rcases hu : env.upload with _ | msg
  case some => simp [runWorker, hb, hf, ha, hs, hu]
  case none =>
  rcases hsig : env.sign with _ | msg <;> simp [runWorker, hb, hf, ha, hs, hu, hsig]

/-- Witness for C3 at a concrete input. -/
theorem cleanup_always_attempted_witness :
    (runWorker sampleEnv "job_1" sampleJob).removeCalled = true ∧
    ((runWorker sampleEnv "job_1" sampleJob).artifactRemoved = true ↔
      sampleEnv.removeOk = true) ∧
    (runWorker { sampleEnv with removeOk := false } "job_1" sampleJob).trace =
      (runWorker sampleEnv "job_1" sampleJob).trace := by
  have h := cleanup_always_attempted sampleEnv "job_1" sampleJob rfl
  exact ⟨h.1, h.2.1, (h.2.2 false).1⟩

/-- C8: a history entry is pushed exactly at the one terminal transition of
a run — the pushed snapshots are `[last]` for the terminal state `last`,
every non-final state is non-terminal (never `queued`/`processing` in
history), and `pushHistory` stores that snapshot together with the capture
timestamp. -/
theorem history_exactly_terminal (env : WorkerEnv) (jobId : String) (j0 : Job)
    (hq : j0.status = "queued") :
    (runWorker env jobId j0).history = [(runWorker env jobId j0).trace.getLastD j0] ∧
    terminal ((runWorker env jobId j0).trace.getLastD j0) ∧
    (∀ j ∈ (runWorker env jobId j0).trace.dropLast, ¬ terminal j) ∧
    (∀ j ∈ fullTrace env jobId j0, terminal j → j ∈ (runWorker env jobId j0).history) ∧
    (∀ now hist,
      (pushHistory jobId ((runWorker env jobId j0).trace.getLastD j0) now hist).head? =
        some { jobId := jobId, job := (runWorker env jobId j0).trace.getLastD j0,
               «at» := now }) := by
  by_cases hb : env.bucketSet
  case neg =>
    exact history_goal_of_shape env jobId j0 (errJob j0 noBucketMsg) []
      (by simp [runWorker, hb]) (by simp [runWorker, hb]) (Or.inr rfl) (by simp) hq
  case pos =>
  have hups : ∀ j ∈ processingJob j0 :: fetchedJob j0 ::
      env.uploadEvents.map (uploadState j0), j.status = "processing" := by
    intro j hj
    simp at hj
    rcases hj with rfl | rfl | ⟨a, b, hab, rfl⟩ <;> rfl
  have hone : ∀ j ∈ [processingJob j0], j.status = "processing" := by
    simp [processingJob]
  rcases hf : env.fetch with _ | msg
  case some =>
    exact history_goal_of_shape env jobId j0 (errJob (processingJob j0) msg)
      [processingJob j0] (by simp [runWorker, hb, hf]) (by simp [runWorker, hb, hf])
      (Or.inr rfl) hone hq
  case none =>
  rcases ha : env.artifact with _ | size
  case none =>
    exact history_goal_of_shape env jobId j0 (errJob (processingJob j0) env.statErrMsg)
      [processingJob j0] (by simp [runWorker, hb, hf, ha])
      (by simp [runWorker, hb, hf, ha]) (Or.inr rfl) hone hq
  case some =>
  by_cases hs : size = 0
  case pos =>
    exact history_goal_of_shape env jobId j0 (errJob (processingJob j0) emptyArtifactMsg)
      [processingJob j0] (by simp [runWorker, hb, hf, ha, hs])
      (by simp [runWorker, hb, hf, ha, hs]) (Or.inr rfl) hone hq
  case neg =>
  rcases hu : env.upload with _ | msg
  case some =>
    exact history_goal_of_shape env jobId j0
      (errJob ((env.uploadEvents.map (uploadState j0)).getLastD (fetchedJob j0)) msg)
      (processingJob j0 :: fetchedJob j0 :: env.uploadEvents.map (uploadState j0))
      (by simp [runWorker, hb, hf, ha, hs, hu])
      (by simp [runWorker, hb, hf, ha, hs, hu])
      (Or.inr rfl) hups hq
  case none =>
  rcases hsig : env.sign with _ | msg
  case some =>
    exact history_goal_of_shape env jobId j0
      (errJob ((env.uploadEvents.map (uploadState j0)).getLastD (fetchedJob j0)) msg)
      (processingJob j0 :: fetchedJob j0 :: env.uploadEvents.map (uploadState j0))
      (by simp [runWorker, hb, hf, ha, hs, hu, hsig])
      (by simp [runWorker, hb, hf, ha, hs, hu, hsig])
      (Or.inr rfl) hups hq
  case none =>
    exact history_goal_of_shape env jobId j0
      (doneJob ((env.uploadEvents.map (uploadState j0)).getLastD (fetchedJob j0))
        env.signedUrl (destKey jobId (audioOnly j0)) size)
      (processingJob j0 :: fetchedJob j0 :: env.uploadEvents.map (uploadState j0))
      (by simp [runWorker, hb, hf, ha, hs, hu, hsig])
      (by simp [runWorker, hb, hf, ha, hs, hu, hsig])
      (Or.inl rfl) hups hq

/-- Witness for C8 at a concrete input. -/
theorem history_exactly_terminal_witness :
    (runWorker sampleEnv "job_1" sampleJob).history =
      [(runWorker sampleEnv "job_1" sampleJob).trace.getLastD sampleJob] ∧
    terminal ((runWorker sampleEnv "job_1" sampleJob).trace.getLastD sampleJob) ∧
    (pushHistory "job_1"
        ((runWorker sampleEnv "job_1" sampleJob).trace.getLastD sampleJob) 5 []).head? =
      some { jobId := "job_1",
             job := (runWorker sampleEnv "job_1" sampleJob).trace.getLastD sampleJob,
             «at» := 5 } := by
  have h := history_exactly_terminal sampleEnv "job_1" sampleJob rfl
  exact ⟨h.1, h.2.1, h.2.2.2.2 5 []⟩

/-- C1 counterexample: the upload progress callback writes its computed
value unconditionally; a callback with no total writes 60, below the 90 a
previous callback wrote, so the trace of a non-terminal job strictly
decreases — refuting the claim's "written only if it does not decrease"
guard and the unconditional monotonicity. -/
theorem progress_guard_counterexample :
    (fullTrace envProgressDrop "job_1" sampleJob).map Job.progress =
      [0, 5, 60, 90, 60, 100] ∧
    ¬ progressMonotone (fullTrace envProgressDrop "job_1" sampleJob) := by
  refine ⟨by decide, ?_⟩
  rw [progressMonotone_iff]
  decide

/-- C1 (amended): each callback writes `60 + min(30, round(30 *
loaded/total))` (0 for an unknown total) unconditionally; the job's
progress is non-decreasing until the terminal transition — with the error
reset to 0 as the only decrease — provided the values the callbacks
compute are themselves non-decreasing. -/
theorem progress_monotone_under_monotone_callbacks (env : WorkerEnv) (jobId : String)
    (j0 : Job) (hadm : admitted j0)
    (hcb : List.Chain' (fun a b => a ≤ b)
      (env.uploadEvents.map fun p => uploadProgressValue p.1 p.2)) :
    progressMonotone (fullTrace env jobId j0) := by
  obtain ⟨hq, hpr, _, _, _, _⟩ := hadm
  unfold progressMonotone fullTrace
  have hshort : ∀ msg, List.Chain' monoStep
      [j0, processingJob j0, errJob (processingJob j0) msg] := by
    intro msg
    rw [List.chain'_cons]
    exact ⟨Or.inl (by simp [processingJob, hpr]),
      List.chain'_pair.mpr (Or.inr ⟨rfl, rfl⟩)⟩
  by_cases hb : env.bucketSet
  case neg =>
    simp only [runWorker, hb, Bool.false_eq_true, not_false_eq_true, if_pos]
    exact List.chain'_pair.mpr (Or.inr ⟨rfl, rfl⟩)
  case pos =>
  rcases hf : env.fetch with _ | msg
  case some =>
    simp only [runWorker, hb, not_true_eq_false, if_neg, hf, List.cons_append,
      List.nil_append]
    exact hshort msg
  case none =>
  rcases ha : env.artifact with _ | size
  case none =>
    simp only [runWorker, hb, not_true_eq_false, if_neg, hf, ha, List.cons_append,
      List.nil_append]
    exact hshort env.statErrMsg
  case some =>
  by_cases hs : size = 0
  case pos =>
    simp only [runWorker, hb, not_true_eq_false, if_neg, hf, ha, hs, if_pos,
      List.cons_append, List.nil_append]
    exact hshort emptyArtifactMsg
  case neg =>
  have hterm_err : ∀ msg base, ((errJob base msg).status = "error" ∧
      (errJob base msg).progress = 0) ∨ (errJob base msg).progress = 100 :=
    fun msg base => Or.inl ⟨rfl, rfl⟩
  rcases hu : env.upload with _ | msg
  case some =>
    have h := chain'_full_branch j0 env.uploadEvents
      (errJob ((env.uploadEvents.map (uploadState j0)).getLastD (fetchedJob j0)) msg)
      hpr hcb (hterm_err msg _)
    simp only [List.cons_append, List.nil_append] at h
    simpa [runWorker, hb, hf, ha, hs, hu] using h
  case none =>
  rcases hsig : env.sign with _ | msg
  case some =>
    have h := chain'_full_branch j0 env.uploadEvents
      (errJob ((env.uploadEvents.map (uploadState j0)).getLastD (fetchedJob j0)) msg)
      hpr hcb (hterm_err msg _)
    simp only [List.cons_append, List.nil_append] at h
    simpa [runWorker, hb, hf, ha, hs, hu, hsig] using h
  case none =>
    have h := chain'_full_branch j0 env.uploadEvents
      (doneJob ((env.uploadEvents.map (uploadState j0)).getLastD (fetchedJob j0))
        env.signedUrl (destKey jobId (audioOnly j0)) size)
      hpr hcb (Or.inr rfl)
    simp only [List.cons_append, List.nil_append] at h
    simpa [runWorker, hb, hf, ha, hs, hu, hsig] using h

/-- Witness for C1 (amended) at a concrete input with non-decreasing
callbacks. -/
theorem progress_monotone_under_monotone_callbacks_witness :
    progressMonotone (fullTrace sampleEnv "job_1" sampleJob) := by
  refine progress_monotone_under_monotone_callbacks sampleEnv "job_1" sampleJob
    (by decide) ?_
  have hmap : sampleEnv.uploadEvents.map (fun p => uploadProgressValue p.1 p.2)
      = [75, 90] := by decide
  rw [hmap]
  exact List.chain'_pair.mpr (by norm_num)

/-- C4 counterexample: when the artifact is absent after the fetch,
`fs.stat` rejects and the job's terminal error message is the stat
failure's own text, not the distinct empty-artifact message the claim
requires. -/
theorem absent_artifact_generic_message :
    ((runWorker envAbsentArtifact "job_1" sampleJob).trace.getLastD sampleJob).status
        = "error" ∧
    ((runWorker envAbsentArtifact "job_1" sampleJob).trace.getLastD sampleJob).error =
      some "ENOENT: no such file or directory" ∧
    "ENOENT: no such file or directory" ≠ emptyArtifactMsg := by decide

/-- C4 (amended): a zero-length artifact after a successful fetch
terminates the job in error with the distinct empty-artifact message;
an absent artifact instead surfaces the stat failure's own message. -/
theorem empty_artifact_distinct_message (env : WorkerEnv) (jobId : String) (j0 : Job)
    (hb : env.bucketSet = true) (hf : env.fetch = none) :
    (env.artifact = some 0 →
      (runWorker env jobId j0).trace.getLastD j0 =
        errJob (processingJob j0) emptyArtifactMsg) ∧
    (env.artifact = none →
      (runWorker env jobId j0).trace.getLastD j0 =
        errJob (processingJob j0) env.statErrMsg) ∧
    (errJob (processingJob j0) emptyArtifactMsg).status = "error" ∧
    (errJob (processingJob j0) emptyArtifactMsg).error = some emptyArtifactMsg := by
  refine ⟨?_, ?_, rfl, rfl⟩
  · intro ha
    simp [runWorker, hb, hf, ha]
  · intro ha
    simp [runWorker, hb, hf, ha]

/-- Witness for C4 (amended) at a concrete input. -/
theorem empty_artifact_distinct_message_witness :
    (runWorker { sampleEnv with artifact := some 0 } "job_1" sampleJob).trace.getLastD
        sampleJob = errJob (processingJob sampleJob) emptyArtifactMsg :=
  (empty_artifact_distinct_message { sampleEnv with artifact := some 0 } "job_1"
    sampleJob rfl rfl).1 rfl

/-- C9 counterexample: a present but malformed source URL fails the parse
endpoint's format check yet is admitted by `/api/download`, which creates
a Job for it — refuting "no Job is added" for malformed references. -/
theorem malformed_url_still_admitted :
    parseUrlOk "not-a-url" = false ∧
    handleDownload badUrlReq = some badUrlJob := by decide

/-- C9 (amended): the admission operation rejects synchronously, creating
no Job, exactly those requests with a missing or empty url, platform or
resourceId; any admitted request yields a queued Job carrying the request
fields with the destructuring defaults — URL-format validation is not part
of admission. -/
theorem admission_presence_only (req : DownloadRequest) :
    ((handleDownload req).isSome ↔
      (truthy req.url ∧ truthy req.platform ∧ truthy req.resourceId)) ∧
    (∀ j, handleDownload req = some j →
      admitted j ∧ j.url = req.url.getD "" ∧ j.platform = req.platform.getD "" ∧
      j.resourceId = req.resourceId.getD "" ∧ j.quality = req.quality.getD "1080p" ∧
      j.type = req.type.getD "video") := by
  unfold handleDownload
  by_cases hc : (truthy req.url : Prop) ∧ truthy req.platform ∧ truthy req.resourceId
  · rw [if_pos hc]
    refine ⟨by simpa using hc, ?_⟩
    intro j hj
    injection hj with h
    subst h
    exact ⟨⟨rfl, rfl, rfl, rfl, rfl, rfl⟩, rfl, rfl, rfl, rfl, rfl⟩
  · rw [if_neg hc]
    refine ⟨by simpa using hc, ?_⟩
    intro j hj
    cases hj

/-- Witness for C9 (amended) at a concrete input. -/
theorem admission_presence_only_witness :
    (handleDownload badUrlReq).isSome = true ∧ admitted badUrlJob := by
  have h := admission_presence_only badUrlReq
  exact ⟨h.1.mpr (by decide), (h.2 badUrlJob (by decide)).1⟩

end Multiclip
